import Mathlib

/-!
Shallow embedding of the oxidy web framework core
(src/src/server.rs and src/src/libs/cpus.rs), together with the
dispatch pipeline, router and worker pool that the spec describes.

Handlers, middleware callbacks and post-hooks are Rust function
pointers / boxed closures over a mutable `Context`; here they are
modelled as pure functions `Ctx → Ctx`.  The pipeline additionally
returns the sequence of invocations it performs (`Event` list), which
is the observable used to state ordering and short-circuit claims.
-/

set_option autoImplicit false

namespace Oxidy

/-- HTTP methods carried by a request; the server keeps one route table
per method (fields `gets`..`patchs` of `Server` in src/src/server.rs). -/
inductive Method where
  | GET | POST | PUT | DELETE | PATCH
deriving DecidableEq, Repr

/-- Modelled from the spec: `Context` (src/src/structs.rs is not among the
sources) — per-connection mutable state passed by exclusive reference
through the pipeline: request method and path, a response buffer, and a
slot for arbitrary middleware-to-handler data. -/
structure Ctx where
  method : Method
  path : String
  response : String
  store : List (String × String)
deriving DecidableEq, Repr

/-- A route handler or fallback handler: Rust `fn(&mut Context) -> ()`,
modelled as a pure state transformer on the context. -/
abbrev Handler := Ctx → Ctx

/-- A deferred post-hook produced by a middleware:
Rust `Box<dyn FnMut(&mut Context)>`. -/
abbrev Hook := Ctx → Ctx

/-- Modelled from the spec: `MiddlewareResult` (src/src/structs.rs is not
among the sources) — a pair of a continuation decision and an optional
post-hook, the `Middleware` tuple type of the source's doc examples. -/
abbrev Middleware := Bool × Option Hook

/-- `MiddlewareCallback` from src/src/server.rs line 8:
`fn(&mut Context) -> Middleware`; the `&mut` effect on the context is
modelled by returning the updated context alongside the result. -/
abbrev MiddlewareCallback := Ctx → Ctx × Middleware

/-- The `Server` struct of src/src/server.rs lines 10-20: middleware
list, five per-method route tables, optional fallback handler and the
allowed thread count. -/
structure Server where
  middlewares : List MiddlewareCallback
  gets : List (String × Handler)
  posts : List (String × Handler)
  puts : List (String × Handler)
  deletes : List (String × Handler)
  patchs : List (String × Handler)
  catchs : Option Handler
  allow_threads : Nat

/-- `Server::new` (src/src/server.rs lines 268-279): empty tables, no
fallback, thread count 0. -/
def Server.new : Server :=
  ⟨[], [], [], [], [], [], none, 0⟩

/-- `Server::middleware` (lines 48-50): pushes the callback onto the
middleware list. -/
def Server.middleware (s : Server) (callback : MiddlewareCallback) : Server :=
  { s with middlewares := s.middlewares ++ [callback] }

/-- `Server::get` (lines 67-69): pushes `(path, callback)` onto the GET
table. -/
def Server.get (s : Server) (path : String) (callback : Handler) : Server :=
  { s with gets := s.gets ++ [(path, callback)] }

/-- `Server::post` (lines 86-88). -/
def Server.post (s : Server) (path : String) (callback : Handler) : Server :=
  { s with posts := s.posts ++ [(path, callback)] }

/-- `Server::put` (lines 105-107). -/
def Server.put (s : Server) (path : String) (callback : Handler) : Server :=
  { s with puts := s.puts ++ [(path, callback)] }

/-- `Server::delete` (lines 124-126). -/
def Server.delete (s : Server) (path : String) (callback : Handler) : Server :=
  { s with deletes := s.deletes ++ [(path, callback)] }

/-- `Server::patch` (lines 143-145). -/
def Server.patch (s : Server) (path : String) (callback : Handler) : Server :=
  { s with patchs := s.patchs ++ [(path, callback)] }

/-- `Server::catch` (lines 164-166): assigns the fallback slot. -/
def Server.catch (s : Server) (callback : Handler) : Server :=
  { s with catchs := some callback }

/-- `Server::threads` (lines 181-183): assigns the thread count. -/
def Server.threads (s : Server) (allow : Nat) : Server :=
  { s with allow_threads := allow }

/-- `cpus` from src/src/libs/cpus.rs lines 3-9: start from the logical
core count reported by `num_cpus::get()`, and replace it by the physical
count `num_cpus::get_physical()` when that is larger.  The two probe
results are passed in as parameters. -/
def cpus (logical physical : Nat) : Nat :=
  if logical < physical then physical else logical

/-- Modelled from the spec: the WorkerPool (src/src/libs/threadpool.rs is
not among the sources) — only its size is relevant here. -/
structure ThreadPool where
  workers : Nat

/-- Modelled from the spec: `WorkerPool.new(n)` creates `n` worker
threads; if the requested count is 0 it substitutes ThreadCountHint's
value, passed in as `hint`. -/
def ThreadPool.new (allow hint : Nat) : ThreadPool :=
  ⟨if allow = 0 then hint else allow⟩

/-! ### Router -/

/-- Modelled from the spec: `resolve` of the Router §4.3 (the lookup code
in src/src/libs/handler.rs is not among the sources) — scan the method's
route list in registration order and return the first handler whose
registered pattern equals the path exactly. -/
def resolve : List (String × Handler) → String → Option Handler
  | [], _ => none
  | (p, h) :: rest, path => if p = path then some h else resolve rest path

/-- The route table of `s` for a given method (the field `gets`..`patchs`
of src/src/server.rs that the dispatcher scans). -/
def routesFor (s : Server) : Method → List (String × Handler)
  | .GET => s.gets
  | .POST => s.posts
  | .PUT => s.puts
  | .DELETE => s.deletes
  | .PATCH => s.patchs

/-! ### Dispatcher pipeline -/

/-- An invocation performed by the dispatch pipeline: running the
middleware at position `i` forward, invoking the resolved route handler,
invoking the fallback handler, or running the post-hook pushed by the
middleware at position `i`. -/
inductive Event where
  | mid (i : Nat)
  | handler
  | fallback
  | hook (i : Nat)
deriving DecidableEq, Repr

/-- Result of the forward middleware phase: the context after the
middlewares that ran, the pending post-hook stack (most recently pushed
first, each tagged with the index of the middleware that pushed it),
whether routing may proceed (`false` iff some middleware returned
`continue = false`), and the invocations performed. -/
structure MwPhase where
  ctx : Ctx
  pending : List (Nat × Hook)
  proceed : Bool
  events : List Event

/-- Modelled from the spec: step 2 of the Dispatcher pipeline §4.4 (the
loop in src/src/libs/handler.rs is not among the sources) — invoke each
middleware in registration order; on `continue = false` stop immediately
and skip routing; otherwise push its post-hook, if present, onto the
pending stack. -/
def runMws : List MiddlewareCallback → Nat → Ctx → MwPhase
  | [], _, c => ⟨c, [], true, []⟩
  | m :: rest, i, c =>
    let r := m c
    if r.2.1 then
      let ph := runMws rest (i + 1) r.1
      match r.2.2 with
      | some h => ⟨ph.ctx, ph.pending ++ [(i, h)], ph.proceed, Event.mid i :: ph.events⟩
      | none => ⟨ph.ctx, ph.pending, ph.proceed, Event.mid i :: ph.events⟩
    else
      ⟨r.1, [], false, [Event.mid i]⟩

/-- Outcome of a pipeline phase: final context plus the invocations
performed. -/
structure DispatchResult where
  ctx : Ctx
  events : List Event

/-- Modelled from the spec: step 3 of the Dispatcher pipeline §4.4 —
resolve the route from the context's method and path; on a match invoke
the registered handler, otherwise invoke the fallback handler if one is
registered, else do nothing at the application level. -/
def routePhase (s : Server) (c : Ctx) : DispatchResult :=
  match resolve (routesFor s c.method) c.path with
  | some h => ⟨h c, [Event.handler]⟩
  | none =>
    match s.catchs with
    | some f => ⟨f c, [Event.fallback]⟩
    | none => ⟨c, []⟩

/-- Modelled from the spec: step 4 of the Dispatcher pipeline §4.4 — run
every pending post-hook, most recently pushed first, each receiving the
context. -/
def runHooks : List (Nat × Hook) → Ctx → DispatchResult
  | [], c => ⟨c, []⟩
  | (i, h) :: rest, c =>
    let r := runHooks rest (h c)
    ⟨r.ctx, Event.hook i :: r.events⟩

/-- Modelled from the spec: the full per-connection Dispatcher pipeline
§4.4 (src/src/libs/handler.rs is not among the sources) — middleware
phase, then routing unless short-circuited, then the post-hooks. -/
def dispatch (s : Server) (c : Ctx) : DispatchResult :=
  let ph := runMws s.middlewares 0 c
  let rr := if ph.proceed then routePhase s ph.ctx else ⟨ph.ctx, []⟩
  let hr := runHooks ph.pending rr.ctx
  ⟨hr.ctx, ph.events ++ rr.events ++ hr.events⟩

/-! ### Acceptor loop -/

/-- One poll outcome of the non-blocking accept in `Server::listen`
(src/src/server.rs lines 215-224): a connection, a `WouldBlock`, or any
other I/O error. -/
inductive AcceptOutcome where
  | ok (conn : Nat)
  | wouldBlock
  | ioError (msg : String)
deriving DecidableEq, Repr

/-- What one iteration of the accept loop does with its poll outcome. -/
inductive LoopAction where
  | submit (conn : Nat)
  | emptyPoll
  | logError (msg : String)
deriving DecidableEq, Repr

/-- Loop control after one iteration of the accept loop. -/
inductive Flow where
  | cont
  | exit
deriving DecidableEq, Repr

/-- The body of the accept loop in `Server::listen` (src/src/server.rs
lines 215-224): `Ok` submits the connection to the pool, `WouldBlock`
is a normal empty poll, any other error is logged; no branch exits the
loop. -/
def listenBody : AcceptOutcome → LoopAction × Flow
  | .ok conn => (.submit conn, .cont)
  | .wouldBlock => (.emptyPoll, .cont)
  | .ioError e => (.logError e, .cont)

/-- The accept loop of `Server::listen` driven over a finite prefix of
poll outcomes: run the body on each outcome in turn, stopping early only
if the body ever asks to exit. -/
def listenRun : List AcceptOutcome → List LoopAction
  | [] => []
  | o :: rest =>
    let r := listenBody o
    match r.2 with
    | .cont => r.1 :: listenRun rest
    | .exit => [r.1]

/-- `Server::listen` (src/src/server.rs lines 195-225): bind the listener
(`unwrap` propagates a bind failure before anything else happens), then
build the thread pool from `allow_threads` and run the accept loop.  The
bind outcome, the ThreadCountHint value and the poll outcomes are passed
in as parameters; the result records the pool size and the actions of
the accept loop. -/
def listen (s : Server) (hint : Nat) (bindResult : Except String Unit)
    (polls : List AcceptOutcome) : Except String (Nat × List LoopAction) :=
  match bindResult with
  | .error e => .error e
  | .ok _ => .ok ((ThreadPool.new s.allow_threads hint).workers, listenRun polls)

/-! ### Registration call sequences -/

/-- One call of the registration API of src/src/server.rs. -/
inductive RegCall where
  | middleware (cb : MiddlewareCallback)
  | get (p : String) (cb : Handler)
  | post (p : String) (cb : Handler)
  | put (p : String) (cb : Handler)
  | delete (p : String) (cb : Handler)
  | patch (p : String) (cb : Handler)
  | catch (cb : Handler)
  | threads (n : Nat)

/-- Apply one registration call to the server. -/
def applyCall (s : Server) : RegCall → Server
  | .middleware cb => s.middleware cb
  | .get p cb => s.get p cb
  | .post p cb => s.post p cb
  | .put p cb => s.put p cb
  | .delete p cb => s.delete p cb
  | .patch p cb => s.patch p cb
  | .catch cb => s.catch cb
  | .threads n => s.threads n

/-- Apply a sequence of registration calls in order. -/
def applyCalls (s : Server) (l : List RegCall) : Server :=
  l.foldl applyCall s

/-- The argument of the most recent `catch` call in the sequence, if
any. -/
def lastCatch : List RegCall → Option Handler
  | [] => none
  | call :: rest =>
    match lastCatch rest with
    | some f => some f
    | none =>
      match call with
      | .catch cb => some cb
      | _ => none

/-! ### Concrete sample data -/

/-- A sample request context: `GET /` with empty buffers. -/
def c0 : Ctx := ⟨Method.GET, "/", "", []⟩

/-- A post-hook that leaves the context unchanged. -/
def idHook : Hook := fun c => c

/-- A middleware that continues and yields a post-hook. -/
def mwContinueHook : MiddlewareCallback := fun c => (c, true, some idHook)

/-- A middleware that short-circuits (`continue = false`, no hook). -/
def mwHalt : MiddlewareCallback := fun c => (c, false, none)

/-- A sample route handler. -/
def handlerA : Handler := fun c => { c with response := "A" }

/-- A sample fallback handler. -/
def handlerF : Handler := fun c => { c with response := "F" }

/-- Sample server: a continuing middleware with a hook, then a halting
middleware, one GET route and a fallback handler. -/
def sW1 : Server :=
  (((Server.new.middleware mwContinueHook).middleware mwHalt).get "/" handlerA).catch
    handlerF

/-- Sample server: two continuing middlewares, each yielding a hook. -/
def sW2 : Server :=
  (Server.new.middleware mwContinueHook).middleware mwContinueHook

/-- Sample server: no middlewares, no routes, only a fallback handler. -/
def sW4 : Server := Server.new.catch handlerF

/-! ### Helper lemmas -/

/-- Effect of one registration call on the fallback slot. -/
lemma applyCall_catchs (s : Server) (call : RegCall) :
    (applyCall s call).catchs =
      match call with
      | RegCall.catch cb => some cb
      | _ => s.catchs := by
  cases call <;> rfl

/-- The fallback slot after a call sequence is the most recent `catch`
argument, falling back to the starting slot. -/
lemma applyCalls_catchs (l : List RegCall) : ∀ s : Server,
    (applyCalls s l).catchs =
      match lastCatch l with
      | some f => some f
      | none => s.catchs := by
  induction l with
  | nil => intro s; rfl
  | cons call rest ih =>
    intro s
    show (applyCalls (applyCall s call) rest).catchs = _
    rw [ih]
    rcases hl : lastCatch rest with _ | f <;>
      cases call <;>
        simp [lastCatch, hl, applyCall_catchs]

/-- The post-hook phase performs exactly one hook invocation per pending
entry, in the order of the pending stack (most recently pushed first). -/
lemma runHooks_events (l : List (Nat × Hook)) : ∀ c : Ctx,
    (runHooks l c).events = l.map (fun p => Event.hook p.1) := by
  induction l with
  | nil => intro c; rfl
  | cons p rest ih =>
    rcases p with ⟨i, h⟩
    intro c
    simp [runHooks, ih]

/-- The forward middleware phase only performs middleware invocations. -/
lemma runMws_events_mid (l : List MiddlewareCallback) : ∀ (i : Nat) (c : Ctx),
    ∀ e ∈ (runMws l i c).events, ∃ j, e = Event.mid j := by
  induction l with
  | nil =>
    intro i c e he
    simp [runMws] at he
  | cons m rest ih =>
    intro i c e he
    by_cases hcont : (m c).2.1
    · rcases hk : (m c).2.2 with _ | h
      · simp only [runMws, hcont, if_true, hk] at he
        rcases List.mem_cons.mp he with rfl | he
        · exact ⟨i, rfl⟩
        · exact ih (i + 1) (m c).1 e he
      · simp only [runMws, hcont, if_true, hk] at he
        rcases List.mem_cons.mp he with rfl | he
        · exact ⟨i, rfl⟩
        · exact ih (i + 1) (m c).1 e he
    · simp only [runMws, hcont] at he
      simp at he
      exact ⟨i, he⟩

/-- When no route pattern equals the path, `resolve` reports no match. -/
lemma resolve_eq_none (routes : List (String × Handler)) (path : String)
    (h : ∀ r ∈ routes, r.1 ≠ path) : resolve routes path = none := by
  induction routes with
  | nil => rfl
  | cons r rest ih =>
    rcases r with ⟨p, f⟩
    have hp : p ≠ path := h (p, f) (List.mem_cons_self _ _)
    simp only [resolve, hp, if_false]
    exact ih fun r hr => h r (List.mem_cons_of_mem _ hr)

/-- When every middleware continues and yields a post-hook, the forward
phase visits all of them in order, never short-circuits, and the pending
stack holds the middleware indices in reverse registration order. -/
lemma runMws_all_continue : ∀ l : List MiddlewareCallback,
    (∀ m ∈ l, ∀ c' : Ctx, (m c').2.1 = true ∧ ((m c').2.2).isSome = true) →
    ∀ (i : Nat) (c : Ctx),
      (runMws l i c).proceed = true
      ∧ (runMws l i c).events = (List.range' i l.length).map Event.mid
      ∧ (runMws l i c).pending.map Prod.fst = (List.range' i l.length).reverse := by
  intro l
  induction l with
  | nil => intro H i c; exact ⟨rfl, rfl, rfl⟩
  | cons m rest ih =>
    intro H i c
    obtain ⟨hcont, hsome⟩ := H m (List.mem_cons_self m rest) c
    rcases Option.isSome_iff_exists.mp hsome with ⟨hk, hhk⟩
    obtain ⟨ihp, ihe, ihpend⟩ :=
      ih (fun m' hm' => H m' (List.mem_cons_of_mem _ hm')) (i + 1) (m c).1
    refine ⟨?_, ?_, ?_⟩
    · simp only [runMws, hcont, if_true, hhk]
      exact ihp
    · simp only [runMws, hcont, if_true, hhk, List.length_cons, List.range'_succ,
        List.map_cons]
      rw [ihe]
    · simp only [runMws, hcont, if_true, hhk, List.length_cons, List.range'_succ,
        List.map_append, List.reverse_cons, ihpend]
      rfl

/-! ### Claim theorems -/

/-- C1: if some middleware returns `continue = false`, neither the route
handler nor the fallback handler is invoked for that connection, and
every post-hook pushed by the middlewares that ran before the
short-circuit still runs. -/
theorem dispatch_short_circuit (s : Server) (c : Ctx)
    (h : (runMws s.middlewares 0 c).proceed = false) :
    Event.handler ∉ (dispatch s c).events
    ∧ Event.fallback ∉ (dispatch s c).events
    ∧ ∀ p ∈ (runMws s.middlewares 0 c).pending,
        Event.hook p.1 ∈ (dispatch s c).events := by
  have hev : (dispatch s c).events
      = (runMws s.middlewares 0 c).events
        ++ (runMws s.middlewares 0 c).pending.map (fun p => Event.hook p.1) := by
    simp [dispatch, h, runHooks_events]
  refine ⟨?_, ?_, ?_⟩
  · intro hmem
    rw [hev] at hmem
    rcases List.mem_append.mp hmem with hm | hm
    · rcases runMws_events_mid s.middlewares 0 c _ hm with ⟨j, hj⟩
      exact Event.noConfusion hj
    · rcases List.mem_map.mp hm with ⟨p, _, hp⟩
      exact Event.noConfusion hp
  · intro hmem
    rw [hev] at hmem
    rcases List.mem_append.mp hmem with hm | hm
    · rcases runMws_events_mid s.middlewares 0 c _ hm with ⟨j, hj⟩
      exact Event.noConfusion hj
    · rcases List.mem_map.mp hm with ⟨p, _, hp⟩
      exact Event.noConfusion hp
  · intro p hp
    rw [hev]
    exact List.mem_append_right _ (List.mem_map.mpr ⟨p, hp, rfl⟩)

/-- Witness for `dispatch_short_circuit` on `sW1` and `c0`: the second
middleware halts the chain even though a GET route and a fallback are
registered. -/
theorem dispatch_short_circuit_witness :
    (runMws sW1.middlewares 0 c0).proceed = false
    ∧ (Event.handler ∉ (dispatch sW1 c0).events
      ∧ Event.fallback ∉ (dispatch sW1 c0).events
      ∧ ∀ p ∈ (runMws sW1.middlewares 0 c0).pending,
          Event.hook p.1 ∈ (dispatch sW1 c0).events) :=
  ⟨rfl, dispatch_short_circuit sW1 c0 rfl⟩

/-- C2: when every middleware continues and yields a post-hook, the
pipeline runs the middlewares forward in registration order, then the
routing phase, then the post-hooks in strictly reverse registration
order of the middlewares that produced them. -/
theorem dispatch_posthook_reverse_order (s : Server) (c : Ctx)
    (H : ∀ m ∈ s.middlewares, ∀ c' : Ctx,
      (m c').2.1 = true ∧ ((m c').2.2).isSome = true) :
    (dispatch s c).events
      = (List.range s.middlewares.length).map Event.mid
        ++ (routePhase s (runMws s.middlewares 0 c).ctx).events
        ++ (List.range s.middlewares.length).reverse.map Event.hook := by
  obtain ⟨hpr, hevs, hpend⟩ := runMws_all_continue s.middlewares H 0 c
  have hhooks : ∀ c2 : Ctx,
      (runHooks (runMws s.middlewares 0 c).pending c2).events
        = (List.range s.middlewares.length).reverse.map Event.hook := by
    intro c2
    rw [runHooks_events]
    have : (fun p : Nat × Hook => Event.hook p.1) = Event.hook ∘ Prod.fst := rfl
    rw [this, ← List.map_map, hpend, List.range_eq_range']
  simp only [dispatch, hpr, if_true]
  rw [hevs, hhooks, List.range_eq_range']

/-- Witness for `dispatch_posthook_reverse_order` on `sW2` and `c0`:
both middlewares continue and yield a post-hook. -/
theorem dispatch_posthook_reverse_order_witness :
    (∀ m ∈ sW2.middlewares, ∀ c' : Ctx,
      (m c').2.1 = true ∧ ((m c').2.2).isSome = true)
    ∧ (dispatch sW2 c0).events
      = (List.range sW2.middlewares.length).map Event.mid
        ++ (routePhase sW2 (runMws sW2.middlewares 0 c0).ctx).events
        ++ (List.range sW2.middlewares.length).reverse.map Event.hook := by
  have H : ∀ m ∈ sW2.middlewares, ∀ c' : Ctx,
      (m c').2.1 = true ∧ ((m c').2.2).isSome = true := by
    intro m hm c'
    have hm2 : m = mwContinueHook := by
      simpa [sW2, Server.middleware, Server.new] using hm
    subst hm2
    exact ⟨rfl, rfl⟩
  exact ⟨H, dispatch_posthook_reverse_order sW2 c0 H⟩

/-- C4: with the middleware chain continuing and no registered pattern
equal to the routed context's path, `resolve` reports no match, and the
dispatcher invokes the fallback handler iff one was registered; no route
handler runs. -/
theorem dispatch_no_match_fallback (s : Server) (c : Ctx)
    (hpr : (runMws s.middlewares 0 c).proceed = true)
    (hnm : ∀ r ∈ routesFor s (runMws s.middlewares 0 c).ctx.method,
        r.1 ≠ (runMws s.middlewares 0 c).ctx.path) :
    resolve (routesFor s (runMws s.middlewares 0 c).ctx.method)
        (runMws s.middlewares 0 c).ctx.path = none
    ∧ (Event.fallback ∈ (dispatch s c).events ↔ (s.catchs).isSome = true)
    ∧ Event.handler ∉ (dispatch s c).events := by
  have hres := resolve_eq_none _ _ hnm
  have hev : (dispatch s c).events
      = (runMws s.middlewares 0 c).events
        ++ (routePhase s (runMws s.middlewares 0 c).ctx).events
        ++ (runMws s.middlewares 0 c).pending.map (fun p => Event.hook p.1) := by
    simp only [dispatch, hpr, if_true]
    rw [runHooks_events]
  have hnotmid : Event.fallback ∉ (runMws s.middlewares 0 c).events
      ∧ Event.handler ∉ (runMws s.middlewares 0 c).events := by
    constructor <;>
      · intro hm
        rcases runMws_events_mid s.middlewares 0 c _ hm with ⟨j, hj⟩
        exact Event.noConfusion hj
  have hnothook : ∀ e ∈ (runMws s.middlewares 0 c).pending.map
      (fun p : Nat × Hook => Event.hook p.1), ∃ j, e = Event.hook j := by
    intro e he
    rcases List.mem_map.mp he with ⟨p, _, hp⟩
    exact ⟨p.1, hp.symm⟩
  refine ⟨hres, ?_, ?_⟩
  · rcases hc : s.catchs with _ | f
    · have hroute : (routePhase s (runMws s.middlewares 0 c).ctx).events = [] := by
        simp [routePhase, hres, hc]
      simp only [hc, Option.isSome_none]
      constructor
      · intro hm
        rw [hev, hroute] at hm
        rcases List.mem_append.mp hm with hm | hm
        · rcases List.mem_append.mp hm with hm | hm
          · exact absurd hm hnotmid.1
          · simp at hm
        · rcases hnothook _ hm with ⟨j, hj⟩
          exact Event.noConfusion hj
      · intro hfalse
        exact absurd hfalse (by simp)
    · have hroute : (routePhase s (runMws s.middlewares 0 c).ctx).events
          = [Event.fallback] := by
        simp [routePhase, hres, hc]
      simp only [hc, Option.isSome_some]
      constructor
      · intro _
        trivial
      · intro _
        rw [hev, hroute]
        exact List.mem_append_left _ (List.mem_append_right _ (List.mem_singleton.mpr rfl))
  · intro hm
    rw [hev] at hm
    rcases List.mem_append.mp hm with hm | hm
    · rcases List.mem_append.mp hm with hm | hm
      · exact absurd hm hnotmid.2
      · rcases hc : s.catchs with _ | f <;>
          simp [routePhase, hres, hc] at hm
    · rcases hnothook _ hm with ⟨j, hj⟩
      exact Event.noConfusion hj

/-- Witness for `dispatch_no_match_fallback` on `sW4` and `c0`: no
routes are registered, a fallback is, so the fallback is invoked. -/
theorem dispatch_no_match_fallback_witness :
    ((runMws sW4.middlewares 0 c0).proceed = true
      ∧ ∀ r ∈ routesFor sW4 (runMws sW4.middlewares 0 c0).ctx.method,
          r.1 ≠ (runMws sW4.middlewares 0 c0).ctx.path)
    ∧ (resolve (routesFor sW4 (runMws sW4.middlewares 0 c0).ctx.method)
          (runMws sW4.middlewares 0 c0).ctx.path = none
      ∧ (Event.fallback ∈ (dispatch sW4 c0).events ↔ (sW4.catchs).isSome = true)
      ∧ Event.handler ∉ (dispatch sW4 c0).events) := by
  have h1 : (runMws sW4.middlewares 0 c0).proceed = true := rfl
  have h2 : ∀ r ∈ routesFor sW4 (runMws sW4.middlewares 0 c0).ctx.method,
      r.1 ≠ (runMws sW4.middlewares 0 c0).ctx.path := by
    intro r hr
    simp [sW4, Server.catch, Server.new, routesFor, runMws, c0] at hr
  exact ⟨⟨h1, h2⟩, dispatch_no_match_fallback sW4 c0 h1 h2⟩

/-- C3: `resolve` scans the route list in registration order and returns
the first handler whose registered pattern equals the path exactly; it
matches some handler iff some registered pattern equals the path, so
with duplicate patterns the first-registered handler wins. -/
theorem resolve_first_exact_match (routes : List (String × Handler)) (path : String) :
    resolve routes path = Option.map Prod.snd (List.find? (fun r => r.1 == path) routes)
    ∧ ((resolve routes path).isSome ↔ ∃ r ∈ routes, r.1 = path) := by
  constructor
  · induction routes with
    | nil => rfl
    | cons r rest ih =>
      rcases r with ⟨p, h⟩
      by_cases hp : p = path <;> simp [resolve, List.find?_cons, hp, ih]
  · induction routes with
    | nil => simp [resolve]
    | cons r rest ih =>
      rcases r with ⟨p, h⟩
      by_cases hp : p = path <;> simp [resolve, hp, ih]

/-- C5: the worker pool built from a requested count of 0 substitutes the
ThreadCountHint value, so the pool has at least one worker whenever the
hint is positive; for a requested count of at least 1 the pool has
exactly that many workers. -/
theorem threadpool_new_count (allow hint : Nat) (h : 1 ≤ hint) :
    1 ≤ (ThreadPool.new allow hint).workers
    ∧ (allow = 0 → (ThreadPool.new allow hint).workers = hint)
    ∧ (1 ≤ allow → (ThreadPool.new allow hint).workers = allow) := by
  unfold ThreadPool.new
  by_cases h0 : allow = 0 <;> simp [h0] <;> omega

/-- Witness for `threadpool_new_count` at requested count 0 and hint 4. -/
theorem threadpool_new_count_witness :
    1 ≤ 4
    ∧ (1 ≤ (ThreadPool.new 0 4).workers
      ∧ (0 = 0 → (ThreadPool.new 0 4).workers = 4)
      ∧ (1 ≤ 0 → (ThreadPool.new 0 4).workers = 0)) :=
  ⟨by decide, threadpool_new_count 0 4 (by decide)⟩

/-- C6: `cpus` returns the maximum of the logical and physical core
counts it is given, and is at least 1 whenever the logical count
reported by `num_cpus::get()` is at least 1 (which that library
guarantees regardless of host reporting). -/
theorem cpus_max_pos (logical physical : Nat) (h : 1 ≤ logical) :
    cpus logical physical = max logical physical ∧ 1 ≤ cpus logical physical := by
  unfold cpus
  constructor <;> split <;> omega

/-- Witness for `cpus_max_pos` at logical 2, physical 4. -/
theorem cpus_max_pos_witness :
    1 ≤ 2 ∧ (cpus 2 4 = max 2 4 ∧ 1 ≤ cpus 2 4) :=
  ⟨by decide, cpus_max_pos 2 4 (by decide)⟩

/-- C7: no accept outcome ever terminates the accept loop — every branch
of the loop body continues, `WouldBlock` is a normal empty poll, any
other I/O error is only logged, and the loop driven over any finite
prefix of poll outcomes handles every one of them. -/
theorem listen_loop_never_exits :
    (∀ o : AcceptOutcome, (listenBody o).2 = Flow.cont)
    ∧ listenBody AcceptOutcome.wouldBlock = (LoopAction.emptyPoll, Flow.cont)
    ∧ (∀ e, listenBody (AcceptOutcome.ioError e) = (LoopAction.logError e, Flow.cont))
    ∧ ∀ polls, (listenRun polls).length = polls.length := by
  refine ⟨fun o => ?_, rfl, fun e => rfl, fun polls => ?_⟩
  · cases o <;> rfl
  · induction polls with
    | nil => rfl
    | cons o rest ih => cases o <;> simp [listenRun, listenBody, ih]

/-- C8: a bind failure makes `listen` propagate the error to its caller
before building the worker pool or entering the accept loop: the result
is exactly the bind error and is independent of the server
configuration, the thread-count hint and the poll outcomes. -/
theorem listen_bind_failure (s : Server) (hint : Nat) (e : String)
    (polls : List AcceptOutcome) :
    listen s hint (Except.error e) polls = Except.error e
    ∧ ∀ (s2 : Server) (hint2 : Nat) (polls2 : List AcceptOutcome),
        listen s hint (Except.error e) polls
          = listen s2 hint2 (Except.error e) polls2 :=
  ⟨rfl, fun _ _ _ => rfl⟩

/-- C9: each registration call appends one entry at the end of its own
list and leaves every other field of the server unchanged. -/
theorem registration_frame (s : Server) (p : String) (cb : Handler)
    (mcb : MiddlewareCallback) :
    ((s.get p cb).gets = s.gets ++ [(p, cb)]
      ∧ (s.get p cb).middlewares = s.middlewares
      ∧ (s.get p cb).posts = s.posts
      ∧ (s.get p cb).puts = s.puts
      ∧ (s.get p cb).deletes = s.deletes
      ∧ (s.get p cb).patchs = s.patchs
      ∧ (s.get p cb).catchs = s.catchs
      ∧ (s.get p cb).allow_threads = s.allow_threads)
    ∧ ((s.post p cb).posts = s.posts ++ [(p, cb)]
      ∧ (s.post p cb).middlewares = s.middlewares
      ∧ (s.post p cb).gets = s.gets
      ∧ (s.post p cb).puts = s.puts
      ∧ (s.post p cb).deletes = s.deletes
      ∧ (s.post p cb).patchs = s.patchs
      ∧ (s.post p cb).catchs = s.catchs
      ∧ (s.post p cb).allow_threads = s.allow_threads)
    ∧ ((s.put p cb).puts = s.puts ++ [(p, cb)]
      ∧ (s.put p cb).middlewares = s.middlewares
      ∧ (s.put p cb).gets = s.gets
      ∧ (s.put p cb).posts = s.posts
      ∧ (s.put p cb).deletes = s.deletes
      ∧ (s.put p cb).patchs = s.patchs
      ∧ (s.put p cb).catchs = s.catchs
      ∧ (s.put p cb).allow_threads = s.allow_threads)
    ∧ ((s.delete p cb).deletes = s.deletes ++ [(p, cb)]
      ∧ (s.delete p cb).middlewares = s.middlewares
      ∧ (s.delete p cb).gets = s.gets
      ∧ (s.delete p cb).posts = s.posts
      ∧ (s.delete p cb).puts = s.puts
      ∧ (s.delete p cb).patchs = s.patchs
      ∧ (s.delete p cb).catchs = s.catchs
      ∧ (s.delete p cb).allow_threads = s.allow_threads)
    ∧ ((s.patch p cb).patchs = s.patchs ++ [(p, cb)]
      ∧ (s.patch p cb).middlewares = s.middlewares
      ∧ (s.patch p cb).gets = s.gets
      ∧ (s.patch p cb).posts = s.posts
      ∧ (s.patch p cb).puts = s.puts
      ∧ (s.patch p cb).deletes = s.deletes
      ∧ (s.patch p cb).catchs = s.catchs
      ∧ (s.patch p cb).allow_threads = s.allow_threads)
    ∧ ((s.middleware mcb).middlewares = s.middlewares ++ [mcb]
      ∧ (s.middleware mcb).gets = s.gets
      ∧ (s.middleware mcb).posts = s.posts
      ∧ (s.middleware mcb).puts = s.puts
      ∧ (s.middleware mcb).deletes = s.deletes
      ∧ (s.middleware mcb).patchs = s.patchs
      ∧ (s.middleware mcb).catchs = s.catchs
      ∧ (s.middleware mcb).allow_threads = s.allow_threads) := by
  refine ⟨?_, ?_, ?_, ?_, ?_, ?_⟩ <;>
    exact ⟨rfl, rfl, rfl, rfl, rfl, rfl, rfl, rfl⟩

/-- C10: a fresh server has no fallback handler, each `catch` call sets
the fallback slot to exactly its argument, and after any sequence of
registration calls starting from `Server.new` the fallback slot holds
the argument of the most recent `catch` call, or nothing if none was
made. -/
theorem catch_slot_most_recent :
    Server.new.catchs = none
    ∧ (∀ (s : Server) (f : Handler), (s.catch f).catchs = some f)
    ∧ ∀ l : List RegCall, (applyCalls Server.new l).catchs = lastCatch l := by
  refine ⟨rfl, fun s f => rfl, fun l => ?_⟩
  rw [applyCalls_catchs l Server.new]
  rcases lastCatch l with _ | f <;> rfl

end Oxidy
